import Mathlib

/-!
Verification of the resource-management core (`c7n/manager.py`) of a
cloud-governance policy engine.  The Python source is shallowly embedded:
pure functions become Lean functions, the generator loop of `iter_filters`
becomes a recursive function over the explicit deque, exceptions become
`Except`, and `None` absent results become `Option`.
-/

namespace Manager

/-- A filter node as consumed polymorphically by `iter_filters`: it exposes a
`type` string (values `or`/`and`/`not` mark boolean combinators) and a
`filters` sequence of children (meaningful only for combinators; the Python
code reads `.filters` only after checking the type). -/
inductive Filter where
| node : String → List Filter → Filter

/-- The `type` attribute of a filter node. -/
def Filter.type : Filter → String
| .node t _ => t

/-- The `filters` (children) attribute of a filter node. -/
def Filter.filters : Filter → List Filter
| .node _ fs => fs

/-- The membership test `f.type in ('or', 'and', 'not')` from the source. -/
def isCombinator (f : Filter) : Bool :=
  f.type == "or" || f.type == "and" || f.type == "not"

/-- Number of nodes of a filter tree (used for the termination measure of the
queue loop). -/
def Filter.size : Filter → Nat
| .node _ fs => 1 + sizeList fs
where
  /-- Total node count of a list of filter trees. -/
  sizeList : List Filter → Nat
  | [] => 0
  | f :: fs => Filter.size f + sizeList fs

theorem Filter.size_pos (f : Filter) : 1 ≤ f.size := by
  cases f with
  | node t fs => simp [Filter.size]

/-- Termination weight of a queue: three per tree node, one per sentinel.
Expanding a combinator removes weight 3 for the combinator node itself while
adding at most one sentinel, so the weight strictly decreases at every loop
iteration. -/
def qweight : List (Option Filter) → Nat
| [] => 0
| none :: q => 1 + qweight q
| some f :: q => 3 * f.size + qweight q

theorem qweight_foldl_push (fs : List Filter) (q : List (Option Filter)) :
    qweight (fs.foldl (fun acc gf => some gf :: acc) q)
      = 3 * Filter.size.sizeList fs + qweight q := by
  induction fs generalizing q with
  | nil => simp [Filter.size.sizeList]
  | cons f fs ih =>
      simp only [List.foldl_cons, ih, Filter.size.sizeList, qweight]
      ring

theorem qweight_expand_lt (flt : Filter) (block_end : Bool)
    (queue : List (Option Filter)) :
    qweight (flt.filters.foldl (fun acc gf => some gf :: acc)
      (if block_end then (none : Option Filter) :: queue else queue))
      < qweight (some flt :: queue) := by
  rw [qweight_foldl_push]
  have h1 : qweight (if block_end then (none : Option Filter) :: queue else queue)
      ≤ 1 + qweight queue := by
    cases block_end <;> simp [qweight]
  cases flt with
  | node t fs =>
      simp only [Filter.filters, Filter.size, qweight] at *
      omega

theorem qweight_tail_lt_some (flt : Filter) (queue : List (Option Filter)) :
    qweight queue < qweight (some flt :: queue) := by
  have := Filter.size_pos flt
  simp only [qweight]
  omega

/-- The queue loop of `iter_filters` (source: `while queue: f = queue.popleft();
if f is not None and f.type in ('or','and','not'): if block_end:
queue.appendleft(None); for gf in f.filters: queue.appendleft(gf); yield f`).
The queue holds `Option Filter`; `none` is the block-end sentinel.  Each
popped element is yielded (consed onto the output) after its children, if
any, have been pushed to the front of the queue. -/
def iterQueue (block_end : Bool) : List (Option Filter) → List (Option Filter)
| [] => []
| none :: queue => none :: iterQueue block_end queue
| some flt :: queue =>
  if isCombinator flt then
    some flt :: iterQueue block_end
      (flt.filters.foldl (fun acc gf => some gf :: acc)
        (if block_end then (none : Option Filter) :: queue else queue))
  else
    some flt :: iterQueue block_end queue
termination_by q => qweight q
decreasing_by
· simp only [qweight]
  omega
· apply qweight_expand_lt
· apply qweight_tail_lt_some

/-- The linearization `iter_filters(filters, block_end)`: the deque is
initialized with the top-level filters in order, then the loop above runs. -/
def iter_filters (filters : List Filter) (block_end : Bool) : List (Option Filter) :=
  iterQueue block_end (filters.map some)

mutual

/-- Claim-side recursive description of the linearization (a second
definition following the claim's words, to be compared with the queue-based
`iter_filters`): every node is yielded first; a boolean combinator is
followed immediately by its children in reverse declaration order, each
child recursively expanded before earlier-declared siblings; when
`block_end` is true a sentinel closes the combinator's fully expanded
block. -/
def specExpand (block_end : Bool) : Filter → List (Option Filter)
| .node t fs =>
  if isCombinator (.node t fs) then
    some (.node t fs) :: (specExpandRev block_end fs
      ++ (if block_end then [(none : Option Filter)] else []))
  else
    [some (.node t fs)]

/-- Expansions of a child list in reverse declaration order: the
last-declared child's expansion comes first. -/
def specExpandRev (block_end : Bool) : List Filter → List (Option Filter)
| [] => []
| f :: fs => specExpandRev block_end fs ++ specExpand block_end f

end

/-- Expansion of a queue element: the sentinel expands to itself. -/
def specExpandO (block_end : Bool) : Option Filter → List (Option Filter)
| none => [none]
| some f => specExpand block_end f

theorem foldl_push_eq (fs : List Filter) (q : List (Option Filter)) :
    fs.foldl (fun acc gf => some gf :: acc) q = (fs.reverse.map some) ++ q := by
  induction fs generalizing q with
  | nil => simp
  | cons f fs ih => simp [ih]

theorem specExpandRev_eq (block_end : Bool) (fs : List Filter) :
    specExpandRev block_end fs = fs.reverse.flatMap (specExpand block_end) := by
  induction fs with
  | nil => simp [specExpandRev]
  | cons f fs ih => simp [specExpandRev, ih]

theorem flatMap_map_some (block_end : Bool) (fs : List Filter) :
    (fs.map some).flatMap (specExpandO block_end) = fs.flatMap (specExpand block_end) := by
  induction fs with
  | nil => simp
  | cons f fs ih => simp [ih, specExpandO]

theorem iterQueue_eq_flatMap (block_end : Bool) (q : List (Option Filter)) :
    iterQueue block_end q = q.flatMap (specExpandO block_end) := by
  generalize hn : qweight q = n
  induction n using Nat.strong_induction_on generalizing q with
  | _ n ih =>
    match q with
    | [] => simp [iterQueue]
    | none :: queue =>
        rw [iterQueue, ih (qweight queue) (by subst hn; simp [qweight]) queue rfl]
        simp [specExpandO]
    | some flt :: queue =>
        rw [iterQueue]
        by_cases hc : isCombinator flt
        · rw [if_pos hc]
          rw [ih _ (by subst hn; exact qweight_expand_lt flt block_end queue) _ rfl]
          rw [foldl_push_eq]
          cases flt with
          | node t fs =>
              simp only [List.flatMap_cons, specExpandO, specExpand, if_pos hc,
                Filter.filters, List.flatMap_append, flatMap_map_some, specExpandRev_eq]
              cases block_end <;> simp [specExpandO]
        · rw [if_neg hc]
          rw [ih _ (by subst hn; exact qweight_tail_lt_some flt queue) _ rfl]
          cases flt with
          | node t fs =>
              simp [specExpandO, specExpand, hc]

/-- The linearization agrees with the claim-side recursive expansion. -/
theorem iter_filters_eq_flatMap (filters : List Filter) (block_end : Bool) :
    iter_filters filters block_end = filters.flatMap (specExpand block_end) := by
  rw [iter_filters, iterQueue_eq_flatMap, flatMap_map_some]

theorem specExpand_leaf (block_end : Bool) (f : Filter)
    (h : isCombinator f = false) : specExpand block_end f = [some f] := by
  cases f with
  | node t fs =>
      rw [specExpand, if_neg (by simp [h])]

/-- Fuel-bounded version of the `iter_filters` loop: one unit of fuel is
consumed per loop iteration and `none` is returned when fuel runs out, so
termination of the loop is exactly the statement that some finite fuel
suffices. -/
def iterQueueFuel (block_end : Bool) :
    Nat → List (Option Filter) → Option (List (Option Filter))
| _, [] => some []
| 0, _ :: _ => none
| fuel + 1, none :: queue =>
    (iterQueueFuel block_end fuel queue).map (fun out => none :: out)
| fuel + 1, some flt :: queue =>
  if isCombinator flt then
    (iterQueueFuel block_end fuel
      (flt.filters.foldl (fun acc gf => some gf :: acc)
        (if block_end then (none : Option Filter) :: queue else queue))).map
      (fun out => some flt :: out)
  else
    (iterQueueFuel block_end fuel queue).map (fun out => some flt :: out)

theorem iterQueueFuel_terminates (block_end : Bool) (q : List (Option Filter)) :
    ∃ fuel : Nat, iterQueueFuel block_end fuel q = some (iterQueue block_end q) := by
  generalize hn : qweight q = n
  induction n using Nat.strong_induction_on generalizing q with
  | _ n ih =>
    match q with
    | [] => exact ⟨0, by simp [iterQueueFuel, iterQueue]⟩
    | none :: queue =>
        obtain ⟨m, hm⟩ := ih (qweight queue) (by subst hn; simp [qweight]) queue rfl
        refine ⟨m + 1, ?_⟩
        rw [iterQueue]
        simp [iterQueueFuel, hm]
    | some flt :: queue =>
        by_cases hc : isCombinator flt
        · obtain ⟨m, hm⟩ := ih _
            (by subst hn; exact qweight_expand_lt flt block_end queue) _ rfl
          refine ⟨m + 1, ?_⟩
          rw [iterQueue, if_pos hc]
          simp [iterQueueFuel, hc, hm]
        · obtain ⟨m, hm⟩ := ih _
            (by subst hn; exact qweight_tail_lt_some flt queue) _ rfl
          refine ⟨m + 1, ?_⟩
          rw [iterQueue, if_neg hc]
          simp [iterQueueFuel, hc, hm]

/-- C1: the linearization `iter_filters` yields each boolean combinator
(type in or/and/not) followed immediately by its children in reverse
declaration order, each child recursively expanded before earlier-declared
siblings, and when `block_end` is true a sentinel is yielded after the
combinator's fully expanded block (this recursive reading is `specExpand`);
in particular on a single `and` node with two leaf children it yields
exactly the combinator, the second child, the first child, and (when
`block_end` is true) the sentinel. -/
theorem c1_iter_filters_linearization :
    (∀ (filters : List Filter) (block_end : Bool),
        iter_filters filters block_end = filters.flatMap (specExpand block_end))
    ∧ (∀ f1 f2 : Filter, isCombinator f1 = false → isCombinator f2 = false →
        iter_filters [Filter.node "and" [f1, f2]] true
          = [some (Filter.node "and" [f1, f2]), some f2, some f1, none]
        ∧ iter_filters [Filter.node "and" [f1, f2]] false
          = [some (Filter.node "and" [f1, f2]), some f2, some f1]) := by
  refine ⟨iter_filters_eq_flatMap, ?_⟩
  intro f1 f2 h1 h2
  have hand : isCombinator (Filter.node "and" [f1, f2]) = true := by
    simp [isCombinator, Filter.type]
  constructor <;>
  · rw [iter_filters_eq_flatMap]
    simp [specExpand, hand, specExpandRev, Filter.filters,
      specExpand_leaf _ _ h1, specExpand_leaf _ _ h2]

/-- Witness for C1: concrete leaf children named a and b. -/
theorem c1_iter_filters_linearization_witness :
    isCombinator (Filter.node "a" []) = false
    ∧ isCombinator (Filter.node "b" []) = false
    ∧ iter_filters [Filter.node "and" [Filter.node "a" [], Filter.node "b" []]] true
        = [some (Filter.node "and" [Filter.node "a" [], Filter.node "b" []]),
           some (Filter.node "b" []), some (Filter.node "a" []), none]
    ∧ iter_filters [Filter.node "and" [Filter.node "a" [], Filter.node "b" []]] false
        = [some (Filter.node "and" [Filter.node "a" [], Filter.node "b" []]),
           some (Filter.node "b" []), some (Filter.node "a" [])] := by
  have h1 : isCombinator (Filter.node "a" []) = false := by decide
  have h2 : isCombinator (Filter.node "b" []) = false := by decide
  have h := c1_iter_filters_linearization.2 (Filter.node "a" [])
    (Filter.node "b" []) h1 h2
  exact ⟨h1, h2, h.1, h.2⟩

/-- C9: for every finite filter tree list (the inductive type `Filter` only
contains finite, acyclic trees) and either value of `block_end`, the queue
loop of `iter_filters` terminates: some finite fuel makes the fuel-bounded
loop return, and its result is the (finite) list `iter_filters` computes. -/
theorem c9_iter_filters_terminates (filters : List Filter) (block_end : Bool) :
    ∃ (fuel : Nat) (out : List (Option Filter)),
      iterQueueFuel block_end fuel (filters.map some) = some out
      ∧ iter_filters filters block_end = out := by
  obtain ⟨fuel, h⟩ := iterQueueFuel_terminates block_end (filters.map some)
  exact ⟨fuel, iter_filters filters block_end, h, rfl⟩

/-- A pipeline filter as consumed by `filter_resources`: a `type` string
(used by the source only to name the tracing span) and a `process` function
mapping the working resource list and the event to the surviving list.
Resources and events are opaque type parameters. -/
structure PFilter (ρ ε : Type) where
  type : String
  process : List ρ → ε → List ρ

/-- The pipeline loop of `filter_resources`: iterate over the filters in
declaration order, replacing the working set by `f.process(resources,
event)`, and break out of the loop as soon as the working set is empty
(`if not resources: break`).  Tracing spans and debug logging do not affect
the returned value and are not modelled. -/
def filter_resources {ρ ε : Type} (filters : List (PFilter ρ ε))
    (resources : List ρ) (event : ε) : List ρ :=
  match filters with
  | [] => resources
  | f :: fs =>
    if resources.isEmpty then resources
    else filter_resources fs (f.process resources event) event

/-- Instrumented variant of the same loop that also records, in order, the
filters whose `process` was actually invoked. -/
def filterResourcesTrace {ρ ε : Type} (filters : List (PFilter ρ ε))
    (resources : List ρ) (event : ε) : List ρ × List (PFilter ρ ε) :=
  match filters with
  | [] => (resources, [])
  | f :: fs =>
    if resources.isEmpty then (resources, [])
    else
      let r := filterResourcesTrace fs (f.process resources event) event
      (r.1, f :: r.2)

theorem filterResourcesTrace_fst {ρ ε : Type} (filters : List (PFilter ρ ε))
    (resources : List ρ) (event : ε) :
    (filterResourcesTrace filters resources event).1
      = filter_resources filters resources event := by
  induction filters generalizing resources with
  | nil => rfl
  | cons f fs ih =>
      by_cases h : resources.isEmpty <;>
        simp [filter_resources, filterResourcesTrace, h, ih]

theorem filter_resources_nil_input {ρ ε : Type} (filters : List (PFilter ρ ε))
    (event : ε) : filter_resources filters [] event = [] := by
  cases filters <;> simp [filter_resources]

theorem filterResourcesTrace_nil_input {ρ ε : Type} (filters : List (PFilter ρ ε))
    (event : ε) : filterResourcesTrace filters [] event = ([], []) := by
  cases filters <;> simp [filterResourcesTrace]

/-- C5: when every filter in the chain is narrowing — its output is always
a subset of its input and never longer — `filter_resources` returns a
subset of the input set, and the result is never larger than the input. -/
theorem c5_filter_resources_subset {ρ ε : Type} (filters : List (PFilter ρ ε))
    (resources : List ρ) (event : ε)
    (hnarrow : ∀ f ∈ filters, ∀ rs : List ρ,
      f.process rs event ⊆ rs ∧ (f.process rs event).length ≤ rs.length) :
    filter_resources filters resources event ⊆ resources
    ∧ (filter_resources filters resources event).length ≤ resources.length := by
  induction filters generalizing resources with
  | nil => exact ⟨List.Subset.refl _, Nat.le_refl _⟩
  | cons f fs ih =>
      by_cases h : resources.isEmpty
      · simp only [filter_resources, h, if_pos]
        exact ⟨List.Subset.refl _, Nat.le_refl _⟩
      · simp only [filter_resources, h, if_neg, Bool.false_eq_true,
          not_false_eq_true]
        have hf := hnarrow f (by simp) resources
        have ih' := ih (f.process resources event)
          (fun g hg rs => hnarrow g (by simp [hg]) rs)
        exact ⟨ih'.1.trans hf.1, ih'.2.trans hf.2⟩

/-- Witness for C5: a single narrowing filter dropping the first element. -/
theorem c5_filter_resources_subset_witness :
    filter_resources [⟨"first", fun (rs : List Nat) (_ : Unit) => rs.drop 1⟩]
        [1, 2] () ⊆ [1, 2]
    ∧ (filter_resources [⟨"first", fun (rs : List Nat) (_ : Unit) => rs.drop 1⟩]
        [1, 2] ()).length ≤ ([1, 2] : List Nat).length :=
  c5_filter_resources_subset _ _ _ (by
    intro f hf rs
    simp only [List.mem_singleton] at hf
    subst hf
    exact ⟨List.drop_subset _ _, by simp⟩)

/-- C6: once the working set becomes empty — after a prefix of the chain
has driven it to empty, or when the input is empty from the start — the
`process` of every remaining filter is never invoked (the invocation trace
of the whole chain equals that of the prefix alone) and the empty set is
returned. -/
theorem c6_filter_resources_short_circuit {ρ ε : Type}
    (fs1 fs2 : List (PFilter ρ ε)) (resources : List ρ) (event : ε)
    (h : filter_resources fs1 resources event = []) :
    filterResourcesTrace (fs1 ++ fs2) resources event
      = filterResourcesTrace fs1 resources event
    ∧ filter_resources (fs1 ++ fs2) resources event = [] := by
  induction fs1 generalizing resources with
  | nil =>
      have hres : resources = [] := h
      subst hres
      simp [filterResourcesTrace_nil_input, filter_resources_nil_input,
        filterResourcesTrace]
  | cons f fs ih =>
      by_cases hre : resources.isEmpty
      · have hres : resources = [] := by simpa [List.isEmpty_iff] using hre
        subst hres
        have h0 : filter_resources (f :: fs) ([] : List ρ) event = [] :=
          filter_resources_nil_input _ _
        simp [filterResourcesTrace_nil_input, filter_resources_nil_input]
      · have h' : filter_resources fs (f.process resources event) event = [] := by
          simpa [filter_resources, hre] using h
        have ih' := ih (f.process resources event) h'
        constructor
        · simp only [List.cons_append, filterResourcesTrace, hre,
            Bool.false_eq_true, if_neg, not_false_eq_true, List.append_eq, ih'.1]
        · simp only [List.cons_append, filter_resources, hre,
            Bool.false_eq_true, if_neg, not_false_eq_true, List.append_eq, ih'.2]

/-- Witness for C6: a filter emptying the set followed by a spy filter; the
spy never runs and the trace of the whole chain equals that of the prefix. -/
theorem c6_filter_resources_short_circuit_witness :
    filterResourcesTrace
        ([⟨"kill", fun (_ : List Nat) (_ : Unit) => []⟩]
          ++ [⟨"spy", fun rs _ => rs⟩]) [1] ()
      = filterResourcesTrace [⟨"kill", fun (_ : List Nat) (_ : Unit) => []⟩] [1] ()
    ∧ filter_resources
        ([⟨"kill", fun (_ : List Nat) (_ : Unit) => []⟩]
          ++ [⟨"spy", fun rs _ => rs⟩]) [1] () = [] :=
  c6_filter_resources_short_circuit _ _ _ _ rfl

/-- C7: an empty filter chain is the identity — the input set is returned
unchanged and no filter `process` is invoked (the invocation trace is
empty). -/
theorem c7_filter_resources_empty_chain {ρ ε : Type} (resources : List ρ)
    (event : ε) :
    filter_resources ([] : List (PFilter ρ ε)) resources event = resources
    ∧ filterResourcesTrace ([] : List (PFilter ρ ε)) resources event
        = (resources, []) :=
  ⟨rfl, rfl⟩

/-- Errors a provider API call can raise: a botocore `ClientError` carrying
the machine-readable code `e.response['Error']['Code']`, or any other
exception class (kept opaque as a name). -/
inductive ApiErr where
| clientError (code : String)
| otherError (name : String)
deriving DecidableEq

/-- The slice of the class-level resource-type metadata that `call_api`
reads: the registered not-found codes `resource_type.not_found_exceptions`. -/
structure RTypeInfo where
  not_found_exceptions : List String

/-- `call_api(func, *args, ignore_not_found=True, not_found_codes=None)`:
invoke `func` on its arguments; on a `ClientError`, re-raise when
`ignore_not_found` is false or the code is not in `not_found_codes`
(defaulting, when the argument is `None`, to the resource type's registered
not-found codes), otherwise swallow the error and fall through to the
implicit `None` return (the absent result); any other exception is not
caught and propagates.  The invocation outcome is the value `func args`. -/
def call_api {σ α : Type} (resource_type : RTypeInfo)
    (func : σ → Except ApiErr α) (args : σ)
    (ignore_not_found : Bool) (not_found_codes : Option (List String)) :
    Except ApiErr (Option α) :=
  let nfc := match not_found_codes with
    | none => resource_type.not_found_exceptions
    | some l => l
  match func args with
  | .ok a => .ok (some a)
  | .error (.clientError code) =>
      if !ignore_not_found || !(nfc.contains code) then
        .error (.clientError code)
      else
        .ok none
  | .error (.otherError n) => .error (.otherError n)

/-- C2: `call_api` returns the function's result when it does not raise; it
swallows a client error whose code is a member of the effective not-found
codes (defaulting to the resource type's registered ones) when
`ignore_not_found` is true, returning the absent result; it re-raises the
client error unchanged when `ignore_not_found` is false or the code is not
a member; and any non-client exception propagates unmodified. -/
theorem c2_call_api_guard {σ α : Type} (resource_type : RTypeInfo)
    (func : σ → Except ApiErr α) (args : σ)
    (ignore_not_found : Bool) (not_found_codes : Option (List String)) :
    (∀ a, func args = .ok a →
      call_api resource_type func args ignore_not_found not_found_codes
        = .ok (some a))
    ∧ (∀ code, func args = .error (.clientError code) →
        code ∈ not_found_codes.getD resource_type.not_found_exceptions →
        ignore_not_found = true →
        call_api resource_type func args ignore_not_found not_found_codes
          = .ok none)
    ∧ (∀ code, func args = .error (.clientError code) →
        (ignore_not_found = false ∨
          code ∉ not_found_codes.getD resource_type.not_found_exceptions) →
        call_api resource_type func args ignore_not_found not_found_codes
          = .error (.clientError code))
    ∧ (∀ n, func args = .error (.otherError n) →
        call_api resource_type func args ignore_not_found not_found_codes
          = .error (.otherError n)) := by
  refine ⟨?_, ?_, ?_, ?_⟩
  · intro a hf
    cases not_found_codes <;> simp [call_api, hf]
  · intro code hf hmem hig
    subst hig
    cases not_found_codes <;> simp_all [call_api, hf]
  · intro code hf hcase
    rcases hcase with hig | hmem
    · subst hig
      cases not_found_codes <;> simp_all [call_api, hf]
    · cases not_found_codes <;> simp_all [call_api, hf]
  · intro n hf
    cases not_found_codes <;> simp [call_api, hf]

/-- Witness for C2: a resource type registering code 404; a successful
call, a suppressed 404 client error, a re-raised 500 client error, and a
propagated non-client exception. -/
theorem c2_call_api_guard_witness :
    call_api ⟨["404"]⟩ (fun r : Except ApiErr Nat => r) (.ok 7) true none
      = .ok (some 7)
    ∧ call_api ⟨["404"]⟩ (fun r : Except ApiErr Nat => r)
        (.error (.clientError "404")) true none = .ok none
    ∧ call_api ⟨["404"]⟩ (fun r : Except ApiErr Nat => r)
        (.error (.clientError "500")) true none
        = .error (.clientError "500")
    ∧ call_api ⟨["404"]⟩ (fun r : Except ApiErr Nat => r)
        (.error (.clientError "404")) false none
        = .error (.clientError "404")
    ∧ call_api ⟨["404"]⟩ (fun r : Except ApiErr Nat => r)
        (.error (.otherError "boom")) true none
        = .error (.otherError "boom") :=
  ⟨(c2_call_api_guard ⟨["404"]⟩ (fun r => r) (.ok 7) true none).1 7 rfl,
   (c2_call_api_guard ⟨["404"]⟩ (fun r => r) (.error (.clientError "404"))
      true none).2.1 "404" rfl (by simp) rfl,
   (c2_call_api_guard ⟨["404"]⟩ (fun r => r) (.error (.clientError "500"))
      true none).2.2.1 "500" rfl (Or.inr (by simp)),
   (c2_call_api_guard ⟨["404"]⟩ (fun r => r) (.error (.clientError "404"))
      false none).2.2.1 "404" rfl (Or.inl rfl),
   (c2_call_api_guard ⟨["404"]⟩ (fun r => r) (.error (.otherError "boom"))
      true none).2.2.2 "boom" rfl⟩

/-- The execution-context slice `get_resource_manager` reads: the provider
name of the currently executing policy (`self.ctx.policy.provider_name`). -/
structure Ctx where
  policy_provider_name : String
deriving DecidableEq

/-- The slice of a registered handler class that resolution reads: an
identifying name and the value of
`getattr(klass.get_model(), 'config_type', None)`. -/
structure HandlerClass where
  name : String
  config_type : Option String
deriving DecidableEq

/-- A provider's resource registry, `clouds[provider].resources`. -/
structure Provider where
  resources : List (String × HandlerClass)
deriving DecidableEq

/-- Dictionary lookup, `d.get(key)`. -/
def alookup {α : Type} : List (String × α) → String → Option α
| [], _ => none
| (k, v) :: rest, key => if k = key then some v else alookup rest key

/-- The plugin environment: `load` models the side-effecting
`load_resources(('provider.resource',))` call, giving the state of the
`clouds` provider registry after the qualified name has had a chance to
register itself; the subsequent lookups read that state. -/
structure Env where
  load : String → List (String × Provider)

/-- A constructed target handler: `klass(self.ctx, d)` recorded as the
class, the shared context, and the definition it was constructed with. -/
structure Constructed where
  klass : HandlerClass
  ctx : Ctx
  data : List (String × String)
deriving DecidableEq

/-- Failures of resolution: `ValueError(resource_type)` when the resource
name is not registered (the `UnknownResourceType` error of the spec), and
the `KeyError` of `clouds[provider_name]` when the provider is unknown. -/
inductive ResolveErr where
| unknownResourceType (name : String)
| unknownProvider (name : String)
deriving DecidableEq

instance {α β : Type} [DecidableEq α] [DecidableEq β] :
    DecidableEq (Except α β) := fun a b =>
  match a, b with
  | .ok x, .ok y =>
      if h : x = y then isTrue (by rw [h]) else isFalse (by simp [h])
  | .error x, .error y =>
      if h : x = y then isTrue (by rw [h]) else isFalse (by simp [h])
  | .ok _, .error _ => isFalse (by simp)
  | .error _, .ok _ => isFalse (by simp)

/-- Split a character list at the first dot, `resource_type.split('.', 1)`. -/
def splitFirstDot : List Char → List Char × List Char
| [] => ([], [])
| c :: cs =>
  if c = '.' then ([], cs)
  else
    let p := splitFirstDot cs
    (c :: p.1, p.2)

/-- The provider/resource pair `get_resource_manager` resolves: a qualified
`provider.resource` specifier is split on its first dot; a bare specifier
uses the provider of the currently executing policy. -/
def split_type (ctx : Ctx) (resource_type : String) : String × String :=
  if '.' ∈ resource_type.data then
    let p := splitFirstDot resource_type.data
    (String.mk p.1, String.mk p.2)
  else
    (ctx.policy_provider_name, resource_type)

/-- Python truthiness of the optional `config_type` attribute value. -/
def truthyOpt : Option String → Bool
| none => false
| some s => !s.isEmpty

/-- The truthiness test `not data` on the optional definition mapping. -/
def dataFalsy : Option (List (String × String)) → Bool
| none => true
| some d => d.isEmpty

/-- The expression `data or {}`. -/
def dataOrEmpty (data : Option (List (String × String))) : List (String × String) :=
  if dataFalsy data then [] else data.getD []

/-- `get_resource_manager(resource_type, data=None)`: split the specifier,
trigger the lazy load of the qualified type, look the provider up in
`clouds` and the resource up in the provider's registry (raising
`ValueError(resource_type)` when absent), then construct the target class —
with the synthetic definition `source: self.source_type` when `not data`,
the caller's `source_type` is `config`, and the target model has a truthy
`config_type`; with `data or {}` otherwise. -/
def get_resource_manager (env : Env) (ctx : Ctx) (source_type : String)
    (resource_type : String) (data : Option (List (String × String))) :
    Except ResolveErr Constructed :=
  let pr := split_type ctx resource_type
  let clouds := env.load (pr.1 ++ "." ++ pr.2)
  match alookup clouds pr.1 with
  | none => .error (.unknownProvider pr.1)
  | some provider =>
    match alookup provider.resources pr.2 with
    | none => .error (.unknownResourceType pr.2)
    | some klass =>
      if dataFalsy data && (source_type == "config")
          && truthyOpt klass.config_type then
        .ok ⟨klass, ctx, [("source", source_type)]⟩
      else
        .ok ⟨klass, ctx, dataOrEmpty data⟩

theorem splitFirstDot_append (p r : List Char) (hp : '.' ∉ p) :
    splitFirstDot (p ++ '.' :: r) = (p, r) := by
  induction p with
  | nil => simp [splitFirstDot]
  | cons c cs ih =>
      have hc : c ≠ '.' := by
        intro h
        exact hp (by simp [h])
      have hcs : '.' ∉ cs := fun h => hp (by simp [h])
      simp [splitFirstDot, hc, ih hcs]

theorem split_type_qualified (ctx : Ctx) (p r : String) (hp : '.' ∉ p.data) :
    split_type ctx (p ++ "." ++ r) = (p, r) := by
  have hdot : (("." : String)).data = ['.'] := rfl
  have hdata : (p ++ "." ++ r).data = p.data ++ '.' :: r.data := by
    rw [String.data_append, String.data_append, hdot]
    simp
  simp only [split_type, hdata]
  rw [if_pos (by simp)]
  simp only [splitFirstDot_append p.data r.data hp]

theorem split_type_bare (ctx : Ctx) (resource_type : String)
    (h : '.' ∉ resource_type.data) :
    split_type ctx resource_type = (ctx.policy_provider_name, resource_type) := by
  simp only [split_type, if_neg h]

/-- When both registry lookups succeed, resolution reduces to the
definition-forwarding branch. -/
theorem grm_found (env : Env) (ctx : Ctx) (source_type : String)
    (resource_type : String) (data : Option (List (String × String)))
    (provider : Provider) (klass : HandlerClass)
    (hprov : alookup
        (env.load ((split_type ctx resource_type).1 ++ "."
          ++ (split_type ctx resource_type).2))
        (split_type ctx resource_type).1 = some provider)
    (hres : alookup provider.resources (split_type ctx resource_type).2
      = some klass) :
    get_resource_manager env ctx source_type resource_type data
      = if dataFalsy data && (source_type == "config")
            && truthyOpt klass.config_type then
          .ok ⟨klass, ctx, [("source", source_type)]⟩
        else .ok ⟨klass, ctx, dataOrEmpty data⟩ := by
  simp only [get_resource_manager, hprov, hres]

/-- C3: when the resolved resource name is not registered in the resolved
provider's registry, `get_resource_manager` fails with the
unknown-resource-type error (`ValueError`) carrying exactly the requested
resource-type name — for a bare specifier this is the requested specifier
itself — and constructs no handler. -/
theorem c3_unknown_resource_type (env : Env) (ctx : Ctx) (source_type : String)
    (resource_type : String) (data : Option (List (String × String)))
    (provider : Provider)
    (hprov : alookup
        (env.load ((split_type ctx resource_type).1 ++ "."
          ++ (split_type ctx resource_type).2))
        (split_type ctx resource_type).1 = some provider)
    (hres : alookup provider.resources (split_type ctx resource_type).2
      = none) :
    get_resource_manager env ctx source_type resource_type data
      = .error (.unknownResourceType (split_type ctx resource_type).2)
    ∧ (∀ c : Constructed,
        get_resource_manager env ctx source_type resource_type data ≠ .ok c)
    ∧ ('.' ∉ resource_type.data →
        (split_type ctx resource_type).2 = resource_type) := by
  have h1 : get_resource_manager env ctx source_type resource_type data
      = .error (.unknownResourceType (split_type ctx resource_type).2) := by
    simp only [get_resource_manager, hprov, hres]
  refine ⟨h1, ?_, ?_⟩
  · intro c hc
    rw [h1] at hc
    exact Except.noConfusion hc
  · intro hb
    simp [split_type, hb]

/-- Witness for C3: provider aws is registered with an empty resource
registry, so resolving the bare specifier ec2 fails with the error carrying
exactly ec2. -/
theorem c3_unknown_resource_type_witness :
    get_resource_manager ⟨fun _ => [("aws", ⟨[]⟩)]⟩ ⟨"aws"⟩ "describe"
        "ec2" none
      = .error (.unknownResourceType "ec2") := by
  have h := (c3_unknown_resource_type ⟨fun _ => [("aws", ⟨[]⟩)]⟩ ⟨"aws"⟩
    "describe" "ec2" none ⟨[]⟩ (by decide) (by decide)).1
  simpa using h

/-- C8: a bare specifier resolves identically to the provider-qualified
specifier built from the current policy's provider name: the same lazy
load is triggered, the same registry lookups run, and the same target
handler (or error) results. -/
theorem c8_bare_equals_qualified (env : Env) (ctx : Ctx) (source_type : String)
    (resource_type : String) (data : Option (List (String × String)))
    (hbare : '.' ∉ resource_type.data)
    (hprov : '.' ∉ ctx.policy_provider_name.data) :
    get_resource_manager env ctx source_type resource_type data
      = get_resource_manager env ctx source_type
          (ctx.policy_provider_name ++ "." ++ resource_type) data := by
  have h1 := split_type_bare ctx resource_type hbare
  have h2 := split_type_qualified ctx ctx.policy_provider_name resource_type hprov
  simp only [get_resource_manager, h1, h2]

/-- Witness for C8: resolving ec2 under policy provider aws equals
resolving aws.ec2, on a registry where both succeed. -/
theorem c8_bare_equals_qualified_witness :
    get_resource_manager
        ⟨fun _ => [("aws", ⟨[("ec2", ⟨"EC2", none⟩)]⟩)]⟩ ⟨"aws"⟩ "describe"
        "ec2" none
      = get_resource_manager
        ⟨fun _ => [("aws", ⟨[("ec2", ⟨"EC2", none⟩)]⟩)]⟩ ⟨"aws"⟩ "describe"
        "aws.ec2" none := by
  have h := c8_bare_equals_qualified
    ⟨fun _ => [("aws", ⟨[("ec2", ⟨"EC2", none⟩)]⟩)]⟩ ⟨"aws"⟩ "describe"
    "ec2" none (by decide) (by decide)
  simpa using h

/-- C4 counterexample: with the caller's source_type `config` and a target
class whose model declares a config_type, an explicitly supplied *empty*
definition — a supplied definition, for which the claim's other-case clause
demands construction with that supplied mapping — actually yields a handler
constructed with the synthetic definition source ↦ config, which differs
from the supplied empty mapping. -/
theorem c4_counterexample :
    get_resource_manager
        ⟨fun _ => [("aws", ⟨[("ec2", ⟨"EC2", some "aws.ec2"⟩)]⟩)]⟩
        ⟨"aws"⟩ "config" "ec2" (some [])
      = .ok ⟨⟨"EC2", some "aws.ec2"⟩, ⟨"aws"⟩, [("source", "config")]⟩
    ∧ ([("source", "config")] : List (String × String)) ≠ [] := by
  exact ⟨by decide, by decide⟩

/-- C4 (amended): when the registry lookups succeed, the target handler is
constructed with the synthetic definition source ↦ config exactly when the
supplied definition is absent **or empty** (the code tests truthiness, not
absence), the caller's source_type is `config`, and the target model's
config_type is truthy; a non-empty supplied definition is passed through
as-is; in the remaining cases the handler gets the empty definition. -/
theorem c4_config_definition_forwarding (env : Env) (ctx : Ctx)
    (source_type : String) (resource_type : String)
    (data : Option (List (String × String))) (provider : Provider)
    (klass : HandlerClass)
    (hprov : alookup
        (env.load ((split_type ctx resource_type).1 ++ "."
          ++ (split_type ctx resource_type).2))
        (split_type ctx resource_type).1 = some provider)
    (hres : alookup provider.resources (split_type ctx resource_type).2
      = some klass) :
    ((data = none ∨ data = some []) → source_type = "config" →
      truthyOpt klass.config_type = true →
      get_resource_manager env ctx source_type resource_type data
        = .ok ⟨klass, ctx, [("source", "config")]⟩)
    ∧ (∀ d, data = some d → d ≠ [] →
        get_resource_manager env ctx source_type resource_type data
          = .ok ⟨klass, ctx, d⟩)
    ∧ ((data = none ∨ data = some []) →
        ¬(source_type = "config" ∧ truthyOpt klass.config_type = true) →
        get_resource_manager env ctx source_type resource_type data
          = .ok ⟨klass, ctx, []⟩) := by
  have hbase := grm_found env ctx source_type resource_type data provider
    klass hprov hres
  refine ⟨?_, ?_, ?_⟩
  · intro hd hst htr
    subst hst
    rcases hd with rfl | rfl <;> simp [hbase, dataFalsy, htr]
  · rintro d rfl hne
    rw [hbase]
    have hfals : dataFalsy (some d) = false := by
      simp [dataFalsy, hne]
    simp [hfals, dataOrEmpty]
  · intro hd hnot
    have hcond : ((source_type == "config")
        && truthyOpt klass.config_type) = false := by
      by_cases h : source_type = "config"
      · cases htruth : truthyOpt klass.config_type
        · simp
        · exact absurd ⟨h, htruth⟩ hnot
      · simp [h]
    rcases hd with rfl | rfl <;>
    · rw [hbase]
      simp only [dataFalsy, List.isEmpty_nil, Bool.true_and, hcond,
        if_neg Bool.false_ne_true]
      simp [dataOrEmpty, dataFalsy]

/-- Witness for C4 (amended): the three branches at concrete inputs — an
absent definition under config forwarding, a non-empty supplied definition,
and an absent definition without forwarding. -/
theorem c4_config_definition_forwarding_witness :
    get_resource_manager
        ⟨fun _ => [("aws", ⟨[("ec2", ⟨"EC2", some "aws.ec2"⟩)]⟩)]⟩
        ⟨"aws"⟩ "config" "ec2" none
      = .ok ⟨⟨"EC2", some "aws.ec2"⟩, ⟨"aws"⟩, [("source", "config")]⟩
    ∧ get_resource_manager
        ⟨fun _ => [("aws", ⟨[("ec2", ⟨"EC2", some "aws.ec2"⟩)]⟩)]⟩
        ⟨"aws"⟩ "config" "ec2" (some [("k", "v")])
      = .ok ⟨⟨"EC2", some "aws.ec2"⟩, ⟨"aws"⟩, [("k", "v")]⟩
    ∧ get_resource_manager
        ⟨fun _ => [("aws", ⟨[("ec2", ⟨"EC2", some "aws.ec2"⟩)]⟩)]⟩
        ⟨"aws"⟩ "describe" "ec2" none
      = .ok ⟨⟨"EC2", some "aws.ec2"⟩, ⟨"aws"⟩, []⟩ :=
  ⟨(c4_config_definition_forwarding
      ⟨fun _ => [("aws", ⟨[("ec2", ⟨"EC2", some "aws.ec2"⟩)]⟩)]⟩
      ⟨"aws"⟩ "config" "ec2" none ⟨[("ec2", ⟨"EC2", some "aws.ec2"⟩)]⟩
      ⟨"EC2", some "aws.ec2"⟩ (by decide) (by decide)).1
      (Or.inl rfl) rfl (by decide),
   (c4_config_definition_forwarding
      ⟨fun _ => [("aws", ⟨[("ec2", ⟨"EC2", some "aws.ec2"⟩)]⟩)]⟩
      ⟨"aws"⟩ "config" "ec2" (some [("k", "v")])
      ⟨[("ec2", ⟨"EC2", some "aws.ec2"⟩)]⟩
      ⟨"EC2", some "aws.ec2"⟩ (by decide) (by decide)).2.1
      [("k", "v")] rfl (by decide),
   (c4_config_definition_forwarding
      ⟨fun _ => [("aws", ⟨[("ec2", ⟨"EC2", some "aws.ec2"⟩)]⟩)]⟩
      ⟨"aws"⟩ "describe" "ec2" none ⟨[("ec2", ⟨"EC2", some "aws.ec2"⟩)]⟩
      ⟨"EC2", some "aws.ec2"⟩ (by decide) (by decide)).2.2
      (Or.inl rfl) (by decide)⟩

/-- C10: a call with an explicitly supplied empty definition resolves
identically to a call with no definition supplied (the test `not data` is
a truthiness check); when the caller's source_type is `config` and the
target model's config_type is truthy, both calls construct the target with
the synthetic definition source ↦ config — the supplied empty mapping is
never passed through as-is in that case. -/
theorem c10_empty_definition_equals_none (env : Env) (ctx : Ctx)
    (source_type : String) (resource_type : String) :
    (get_resource_manager env ctx source_type resource_type (some [])
      = get_resource_manager env ctx source_type resource_type none)
    ∧ (∀ (provider : Provider) (klass : HandlerClass),
        alookup (env.load ((split_type ctx resource_type).1 ++ "."
          ++ (split_type ctx resource_type).2))
          (split_type ctx resource_type).1 = some provider →
        alookup provider.resources (split_type ctx resource_type).2
          = some klass →
        source_type = "config" → truthyOpt klass.config_type = true →
          get_resource_manager env ctx source_type resource_type (some [])
            = .ok ⟨klass, ctx, [("source", "config")]⟩
          ∧ get_resource_manager env ctx source_type resource_type none
            = .ok ⟨klass, ctx, [("source", "config")]⟩
          ∧ ([("source", "config")] : List (String × String)) ≠ []) := by
  constructor
  · rfl
  · intro provider klass hp hr hst htr
    subst hst
    have h1 := grm_found env ctx "config" resource_type (some []) provider
      klass hp hr
    have h2 := grm_found env ctx "config" resource_type none provider
      klass hp hr
    refine ⟨?_, ?_, by decide⟩
    · simp [h1, dataFalsy, htr]
    · simp [h2, dataFalsy, htr]

/-- Witness for C10: a registry where the config-forwarding case applies;
the empty-supplied and absent-definition calls coincide on the synthetic
definition. -/
theorem c10_empty_definition_equals_none_witness :
    get_resource_manager
        ⟨fun _ => [("gcp", ⟨[("vm", ⟨"VM", some "gcp.vm"⟩)]⟩)]⟩
        ⟨"gcp"⟩ "config" "vm" (some [])
      = .ok ⟨⟨"VM", some "gcp.vm"⟩, ⟨"gcp"⟩, [("source", "config")]⟩
    ∧ get_resource_manager
        ⟨fun _ => [("gcp", ⟨[("vm", ⟨"VM", some "gcp.vm"⟩)]⟩)]⟩
        ⟨"gcp"⟩ "config" "vm" none
      = .ok ⟨⟨"VM", some "gcp.vm"⟩, ⟨"gcp"⟩, [("source", "config")]⟩ := by
  have h := (c10_empty_definition_equals_none
    ⟨fun _ => [("gcp", ⟨[("vm", ⟨"VM", some "gcp.vm"⟩)]⟩)]⟩
    ⟨"gcp"⟩ "config" "vm").2 ⟨[("vm", ⟨"VM", some "gcp.vm"⟩)]⟩
    ⟨"VM", some "gcp.vm"⟩ (by decide) (by decide) rfl (by decide)
  exact ⟨h.1, h.2.1⟩

end Manager
